import Mathlib

/-!
Verification development for `STT_Voice_Spliter.py`.

The script is an orchestration pipeline: configuration loading
(`load_config` / `DEFAULT_CONFIG`), audio conversion (`convert_to_mp3`),
VAD-driven segmentation (`split_audio`), transcript cleaning
(`remove_newlines_from_text`), transcription post-processing
(`transcribe_audio`), and the entry point (`main`).

Paths and file contents are modelled as `List Char`; Python float
arithmetic on timestamps is modelled exactly over `ℚ`; filesystem state
and subprocess results are passed explicitly; fatal exits are modelled
as explicit outcomes.
-/

namespace STTVoiceSpliter

/-! ### Config loader (`DEFAULT_CONFIG`, `load_config`) -/

/-- The five VAD tuning parameters held in `vad_config`. -/
structure VadConfig where
  min_speech_duration_ms : ℚ
  min_silence_duration_ms : ℚ
  max_speech_duration_s : ℚ
  speech_pad_ms : ℚ
  threshold : ℚ
deriving DecidableEq

/-- `DEFAULT_CONFIG` from the source: 500, 700, 18, 10, 0.6. -/
def DEFAULT_CONFIG : VadConfig :=
  { min_speech_duration_ms := 500
    min_silence_duration_ms := 700
    max_speech_duration_s := 18
    speech_pad_ms := 10
    threshold := 3/5 }

/-- Possible outcomes of attempting to read and parse `config.json`:
the file may be absent, opening it may raise, `json.load` may raise,
or a config value is parsed. -/
inductive ConfigRead
  | missing
  | readFails
  | parseFails
  | parsed (c : VadConfig)

/-- `load_config`: if the file exists it is opened and parsed inside a
`try`; any exception is caught and the defaults are substituted; if the
file is absent the defaults are used. No branch exits the process, so
the result is always `Except.ok`. -/
def load_config : ConfigRead → Except Nat VadConfig
  | ConfigRead.missing => Except.ok DEFAULT_CONFIG
  | ConfigRead.readFails => Except.ok DEFAULT_CONFIG
  | ConfigRead.parseFails => Except.ok DEFAULT_CONFIG
  | ConfigRead.parsed c => Except.ok c

/-! ### Audio converter (`convert_to_mp3`) -/

/-- The target extension `".mp3"`. -/
def mp3Ext : List Char := ['.', 'm', 'p', '3']

/-- Python `file_path.rsplit(".", 1)[0]`: everything before the last
dot, or the whole string when it has no dot. -/
def rsplitHead (s : List Char) : List Char :=
  if '.' ∈ s then ((s.reverse.dropWhile (fun c => c ≠ '.')).drop 1).reverse
  else s

/-- Result of `convert_to_mp3`: either the input path is returned
unchanged (no encoder invocation) or the external encoder is invoked
producing the given output path. -/
inductive ConvertResult
  | noOp (path : List Char)
  | encoded (output : List Char)
deriving DecidableEq

/-- `convert_to_mp3`: if `file_path.lower().endswith(".mp3")` the input
path is returned unchanged; otherwise ffmpeg is invoked writing to
`file_path.rsplit(".", 1)[0] + ".mp3"`. -/
def convert_to_mp3 (file_path : List Char) : ConvertResult :=
  if mp3Ext <:+ file_path.map Char.toLower then ConvertResult.noOp file_path
  else ConvertResult.encoded (rsplitHead file_path ++ mp3Ext)

/-- The path returned by `convert_to_mp3` (its Python return value). -/
def convertResultPath : ConvertResult → List Char
  | ConvertResult.noOp p => p
  | ConvertResult.encoded o => o

/-! ### Segmenter (`split_audio` per-interval loop) -/

/-- One VAD speech interval: the dict with keys 'start' and 'end', in
samples at 16 kHz. ('end' is a Lean keyword, hence `endSample`.) -/
structure SpeechSegment where
  start : Int
  endSample : Int
deriving DecidableEq

/-- `start_time = max(0, segment['start'] / 16000)`. -/
def startTime (s : SpeechSegment) : ℚ := max 0 ((s.start : ℚ) / 16000)

/-- `end_time = segment['end'] / 16000`. -/
def endTime (s : SpeechSegment) : ℚ := (s.endSample : ℚ) / 16000

/-- `duration = end_time - start_time`. -/
def segDuration (s : SpeechSegment) : ℚ := endTime s - startTime s

/-- The skip test `start_time >= end_time or duration < 0.5`. -/
def skipCond (s : SpeechSegment) : Prop :=
  startTime s ≥ endTime s ∨ segDuration s < 1/2

instance : DecidablePred skipCond := fun s => by
  unfold skipCond
  infer_instance

/-- One loop iteration of `split_audio`: either the `⚠️ 스킵됨` log line
for ordinal `n` (file `n.mp3`), or the ffmpeg cut invocation writing
`n.mp3` with the computed start time and duration. -/
inductive SplitAction
  | skip (n : Nat)
  | cut (n : Nat) (startSec durSec : ℚ)
deriving DecidableEq

/-- The action taken for one segment, where `n` is the 1-based ordinal
`idx+1` used in the output filename. -/
def segAction (n : Nat) (s : SpeechSegment) : SplitAction :=
  if skipCond s then SplitAction.skip n
  else SplitAction.cut n (startTime s) (segDuration s)

/-- The `for idx, segment in enumerate(speech_timestamps)` loop, with
`k` the number of segments already consumed (so the current ordinal is
`k+1`). -/
def splitActionsFrom : Nat → List SpeechSegment → List SplitAction
  | _, [] => []
  | k, s :: rest => segAction (k + 1) s :: splitActionsFrom (k + 1) rest

/-- All actions of the `split_audio` loop over the detected intervals,
in detection order. -/
def splitActions (tss : List SpeechSegment) : List SplitAction :=
  splitActionsFrom 0 tss

/-- Whether an action is a cut invocation writing file `n.mp3`. -/
def isCutFor (n : Nat) : SplitAction → Bool
  | SplitAction.cut m _ _ => m == n
  | SplitAction.skip _ => false

/-- How many cut-command invocations the loop makes for file `n.mp3`. -/
def cutInvocations (tss : List SpeechSegment) (n : Nat) : Nat :=
  (splitActions tss).countP (isCutFor n)

/-- The 1-based ordinals of the segment files actually produced. -/
def cutOrdinal : SplitAction → Option Nat
  | SplitAction.cut n _ _ => some n
  | SplitAction.skip _ => none

/-- Ordinals of produced segment files, in production order. -/
def producedOrdinals (tss : List SpeechSegment) : List Nat :=
  (splitActions tss).filterMap cutOrdinal

/-! ### Transcript cleaning (`remove_newlines_from_text`) -/

/-- The whitespace characters stripped by Python `str.strip()` (ASCII
portion). -/
def isPySpace (c : Char) : Bool :=
  c = ' ' || c = '\t' || c = '\n' || c = '\r' || c = '\x0b' || c = '\x0c'

/-- Universal-newline translation performed by Python text-mode reads
(`open(..., "r")` with default `newline=None`): `"\r\n"` and `"\r"`
both become `"\n"`. -/
def pyUniversalNewlines : List Char → List Char
  | [] => []
  | '\r' :: '\n' :: rest => '\n' :: pyUniversalNewlines rest
  | '\r' :: rest => '\n' :: pyUniversalNewlines rest
  | c :: rest => c :: pyUniversalNewlines rest

/-- Helper for `pyReadlines`: `acc` holds the characters of the current
line in reverse. -/
def readlinesAux (acc : List Char) : List Char → List (List Char)
  | [] => if acc.isEmpty then [] else [acc.reverse]
  | c :: rest =>
    if c = '\n' then ('\n' :: acc).reverse :: readlinesAux [] rest
    else readlinesAux (c :: acc) rest

/-- Python `f.readlines()` on already newline-translated content: split
into lines, each keeping its trailing `'\n'`. -/
def pyReadlines (s : List Char) : List (List Char) :=
  readlinesAux [] s

/-- Python `str.strip()`: drop leading and trailing whitespace. -/
def pyStrip (l : List Char) : List Char :=
  ((l.dropWhile isPySpace).reverse.dropWhile isPySpace).reverse

/-- Python `sep.join(parts)`. -/
def joinWith (sep : List Char) : List (List Char) → List Char
  | [] => []
  | [l] => l
  | l :: rest => l ++ sep ++ joinWith sep rest

/-- `remove_newlines_from_text` as a function on the file's raw byte
content: the file is read in text mode (universal newlines), split into
lines, each line is stripped, and the results are joined with single
spaces; the result is written back. -/
def remove_newlines_from_text (content : List Char) : List Char :=
  joinWith [' '] ((pyReadlines (pyUniversalNewlines content)).map pyStrip)

/-! ### Transcriber post-processing (`transcribe_audio` per-file loop) -/

/-- The suffix `".txt"` appended to each segment path. -/
def txtSuffix : List Char := ['.', 't', 'x', 't']

/-- Python `os.path.basename`: the part after the last '/'. -/
def basename (p : List Char) : List Char :=
  (p.reverse.takeWhile (fun c => c ≠ '/')).reverse

/-- Python `os.path.join(dir, file)` for a dir without trailing '/'. -/
def joinPath (dir file : List Char) : List Char :=
  dir ++ '/' :: file

/-- What one iteration of the post-transcription loop does to one
segment file: either its transcript was cleaned in place and moved into
the TEXT folder, or the `❌ TXT 파일 생성 실패` failure was logged. -/
inductive TranscribeEvent
  | moved (txt dest cleaned : List Char)
  | logFail (txt : List Char)
deriving DecidableEq

/-- One iteration of the loop over `audio_files`: `fs` maps a path to
the content of the file there, or `none` if no file exists. -/
def transcribeStep (text_folder : List Char) (fs : List Char → Option (List Char))
    (file : List Char) : TranscribeEvent :=
  match fs (file ++ txtSuffix) with
  | some content =>
      TranscribeEvent.moved (file ++ txtSuffix)
        (joinPath text_folder (basename (file ++ txtSuffix)))
        (remove_newlines_from_text content)
  | none => TranscribeEvent.logFail (file ++ txtSuffix)

/-- The whole post-transcription loop of `transcribe_audio`, in order
over the sorted `audio_files` list. -/
def transcribe_post (text_folder : List Char) (fs : List Char → Option (List Char))
    (files : List (List Char)) : List TranscribeEvent :=
  files.map (transcribeStep text_folder fs)

/-- Example filesystem used to exercise the transcriber loop on
concrete data: only the transcript of 1.mp3 exists. -/
def exampleFs (p : List Char) : Option (List Char) :=
  if p = "1.mp3.txt".toList then some ("hi\nthere\n".toList) else none

/-! ### Entry point (`main`) -/

/-- Observable steps of `main` in execution order. -/
inductive Event
  | install
  | writeMarker
  | prompt
  | convert
  | split
  | transcribe
deriving DecidableEq

/-- Final outcome of the process. -/
inductive Outcome
  | exited (code : Nat)
  | finished
deriving DecidableEq

/-- Python truthiness of `args.filepath`: `None` and the empty string
are falsy. -/
def argTruthy : Option (List Char) → Bool
  | none => false
  | some p => !p.isEmpty

/-- The three pipeline steps run on the selected file. -/
def pipelineEvents : List Event :=
  [Event.convert, Event.split, Event.transcribe]

/-- `main`, abstracted over the ambient state it inspects:
`markerExists` is `os.path.exists("installed.flag")`, `arg` the
optional positional argument, `installOk` whether
`installation_process` completes without raising, `defaultFileExists`
whether `Tvoice.mp3` is in the working directory, and
`promptFileExists` whether the interactively entered path exists.
Returns the ordered list of observable events and the outcome
(an uncaught exception exits with code 1). -/
def mainModel (markerExists : Bool) (arg : Option (List Char)) (installOk : Bool)
    (defaultFileExists : Bool) (promptFileExists : Bool) : List Event × Outcome :=
  if argTruthy arg then (pipelineEvents, Outcome.finished)
  else if !markerExists then
    (if installOk then
      (if defaultFileExists then
        ([Event.install, Event.writeMarker] ++ pipelineEvents, Outcome.finished)
      else ([Event.install, Event.writeMarker], Outcome.exited 1))
    else ([Event.install], Outcome.exited 1))
  else
    (if promptFileExists then (Event.prompt :: pipelineEvents, Outcome.finished)
    else ([Event.prompt], Outcome.exited 1))

/-! ### Claim theorems: config loader and entry point -/

/-- C7: on any read or parse failure of the configuration file, the
config loader substitutes the full default set of five parameters
(min_speech_duration_ms=500, min_silence_duration_ms=700,
max_speech_duration_s=18, speech_pad_ms=10, threshold=0.6) and does not
abort the process (the result is `Except.ok`, never an exit). -/
theorem claim_C7 :
    load_config ConfigRead.readFails = Except.ok DEFAULT_CONFIG ∧
    load_config ConfigRead.parseFails = Except.ok DEFAULT_CONFIG ∧
    DEFAULT_CONFIG.min_speech_duration_ms = 500 ∧
    DEFAULT_CONFIG.min_silence_duration_ms = 700 ∧
    DEFAULT_CONFIG.max_speech_duration_s = 18 ∧
    DEFAULT_CONFIG.speech_pad_ms = 10 ∧
    DEFAULT_CONFIG.threshold = 3/5 :=
  ⟨rfl, rfl, rfl, rfl, rfl, rfl, rfl⟩

/-- C6: marker absent, no CLI argument, default `Tvoice.mp3` missing:
the process exits with status 1 (non-zero) after installation has run
and the marker has been written, and no conversion, segmentation or
transcription event occurs. -/
theorem claim_C6 : ∀ promptFileExists : Bool,
    mainModel false none true false promptFileExists =
      ([Event.install, Event.writeMarker], Outcome.exited 1) ∧
    (∀ e ∈ (mainModel false none true false promptFileExists).1,
      e ≠ Event.convert ∧ e ≠ Event.split ∧ e ≠ Event.transcribe) ∧
    (∃ c, (mainModel false none true false promptFileExists).2 = Outcome.exited c ∧ c ≠ 0) := by
  intro p
  cases p <;> exact ⟨by decide, by decide, 1, by decide, by decide⟩

/-- C1, counterexample: the claim asserts installation runs and the
marker is written whenever the marker is absent, for every way the
program is started. Started with the file argument "a.mp3" and the
marker absent, `main` runs no installation and writes no marker, yet
audio processing begins. -/
theorem claim_C1_counterexample :
    Event.install ∉ (mainModel false (some ("a.mp3".toList)) true true true).1 ∧
    Event.writeMarker ∉ (mainModel false (some ("a.mp3".toList)) true true true).1 ∧
    Event.convert ∈ (mainModel false (some ("a.mp3".toList)) true true true).1 := by
  decide

/-- C1, amended: whenever the marker file is absent at program start
and no (truthy) file argument was given, the entry point runs the full
installation and writes the marker file before processing any audio
(they are the first two events, preceding any pipeline event). -/
theorem claim_C1_amended : ∀ defaultFileExists promptFileExists : Bool,
    (mainModel false none true defaultFileExists promptFileExists).1.take 2 =
      [Event.install, Event.writeMarker] := by
  intro d p
  cases d <;> cases p <;> decide

/-- C6, witness: the concrete scenario with the prompted-path flag set,
instantiated. -/
theorem claim_C6_witness :
    mainModel false none true false true =
      ([Event.install, Event.writeMarker], Outcome.exited 1) :=
  (claim_C6 true).1

/-- C1 amended, witness: with the default file missing and the prompt
flag unset, the first two events are installation and marker write. -/
theorem claim_C1_amended_witness :
    (mainModel false none true false false).1.take 2 =
      [Event.install, Event.writeMarker] :=
  claim_C1_amended false false

/-! ### Claim theorems: audio converter -/

/-- C3: for every input path already carrying the target ".mp3"
extension, the converter returns the input path unchanged without
invoking the external encoder; and applying the converter to its own
output returns that output unchanged. -/
theorem claim_C3 : ∀ p : List Char,
    (mp3Ext <:+ p.map Char.toLower → convert_to_mp3 p = ConvertResult.noOp p) ∧
    convert_to_mp3 (convertResultPath (convert_to_mp3 p)) =
      ConvertResult.noOp (convertResultPath (convert_to_mp3 p)) := by
  intro p
  constructor
  · intro h
    unfold convert_to_mp3
    rw [if_pos h]
  · by_cases h : mp3Ext <:+ p.map Char.toLower
    · unfold convert_to_mp3
      rw [if_pos h]
      unfold convertResultPath
      rw [if_pos h]
    · unfold convert_to_mp3
      rw [if_neg h]
      unfold convertResultPath
      have hsuf : mp3Ext <:+ (rsplitHead p ++ mp3Ext).map Char.toLower := by
        rw [List.map_append]
        have hm : mp3Ext.map Char.toLower = mp3Ext := by decide
        rw [hm]
        exact List.suffix_append _ _
      rw [if_pos hsuf]

/-- C3, witness: "voice.mp3" already has the target extension and is
returned unchanged. -/
theorem claim_C3_witness :
    (mp3Ext <:+ ("voice.mp3".toList).map Char.toLower) ∧
    convert_to_mp3 ("voice.mp3".toList) = ConvertResult.noOp ("voice.mp3".toList) :=
  ⟨by decide, (claim_C3 ("voice.mp3".toList)).1 (by decide)⟩

/-- C9: the converter's extension check is case-insensitive — a path
whose lowercased form ends with ".mp3" is returned unchanged without
invoking the encoder; otherwise the encoder output path is formed by
replacing everything after the last dot with the target extension
(Python `rsplit(".", 1)[0] + ".mp3"`). -/
theorem claim_C9 : ∀ p : List Char,
    (mp3Ext <:+ p.map Char.toLower → convert_to_mp3 p = ConvertResult.noOp p) ∧
    (¬ mp3Ext <:+ p.map Char.toLower →
      convert_to_mp3 p = ConvertResult.encoded (rsplitHead p ++ mp3Ext)) := by
  intro p
  constructor
  · intro h
    unfold convert_to_mp3
    rw [if_pos h]
  · intro h
    unfold convert_to_mp3
    rw [if_neg h]

/-- C9, witness: the upper-case "A.MP3" is a no-op, and "b.wav" is
re-encoded to "b.mp3". -/
theorem claim_C9_witness :
    convert_to_mp3 ("A.MP3".toList) = ConvertResult.noOp ("A.MP3".toList) ∧
    convert_to_mp3 ("b.wav".toList) = ConvertResult.encoded ("b.mp3".toList) :=
  ⟨(claim_C9 ("A.MP3".toList)).1 (by decide),
   ((claim_C9 ("b.wav".toList)).2 (by decide)).trans (by decide)⟩

/-! ### Segmenter lemmas -/

/-- Ordinals emitted from position `k` onwards all exceed `k`, so no
cut for an ordinal at most `k` occurs in the tail of the loop. -/
theorem splitActionsFrom_countP_of_le : ∀ (l : List SpeechSegment) (k n : Nat), n ≤ k →
    (splitActionsFrom k l).countP (isCutFor n) = 0 := by
  intro l
  induction l with
  | nil => intro k n _; rfl
  | cons s rest ih =>
    intro k n hn
    rw [splitActionsFrom, List.countP_cons]
    have h1 : isCutFor n (segAction (k+1) s) = false := by
      unfold segAction
      by_cases hs : skipCond s
      · rw [if_pos hs]; rfl
      · rw [if_neg hs]
        unfold isCutFor
        simp only [beq_eq_false_iff_ne]
        omega
    rw [h1, ih (k+1) n (Nat.le_succ_of_le hn)]
    rfl

/-- The loop makes exactly one cut invocation for the ordinal of a
retained interval and none for the ordinal of a skipped one. -/
theorem splitActionsFrom_countP : ∀ (l : List SpeechSegment) (k i : Nat) (h : i < l.length),
    (splitActionsFrom k l).countP (isCutFor (k + i + 1)) =
      if skipCond (l.get ⟨i, h⟩) then 0 else 1 := by
  intro l
  induction l with
  | nil => intro k i h; exact absurd h (Nat.not_lt_zero i)
  | cons s rest ih =>
    intro k i h
    cases i with
    | zero =>
      show (splitActionsFrom k (s :: rest)).countP (isCutFor (k + 0 + 1)) =
        if skipCond s then 0 else 1
      rw [splitActionsFrom, List.countP_cons]
      rw [show k + 0 + 1 = k + 1 from rfl,
        splitActionsFrom_countP_of_le rest (k+1) (k+1) (Nat.le_refl _)]
      by_cases hs : skipCond s
      · rw [if_pos hs]
        unfold segAction
        rw [if_pos hs]
        rfl
      · rw [if_neg hs]
        unfold segAction
        rw [if_neg hs]
        simp [isCutFor]
    | succ j =>
      have hj : j < rest.length := Nat.lt_of_succ_lt_succ h
      show (splitActionsFrom k (s :: rest)).countP (isCutFor (k + (j+1) + 1)) =
        if skipCond (rest.get ⟨j, hj⟩) then 0 else 1
      have hhead : isCutFor (k + (j+1) + 1) (segAction (k+1) s) = false := by
        unfold segAction
        by_cases hs : skipCond s
        · rw [if_pos hs]; rfl
        · rw [if_neg hs]
          unfold isCutFor
          simp only [beq_eq_false_iff_ne]
          omega
      rw [splitActionsFrom, List.countP_cons, hhead,
        show k + (j+1) + 1 = (k+1) + j + 1 from by omega,
        ih (k+1) j hj]
      simp

/-- A skipped interval at position `i` contributes its skip log entry
with ordinal `k+i+1` to the action list. -/
theorem skip_mem_splitActionsFrom : ∀ (l : List SpeechSegment) (k i : Nat) (h : i < l.length),
    skipCond (l.get ⟨i, h⟩) → SplitAction.skip (k + i + 1) ∈ splitActionsFrom k l := by
  intro l
  induction l with
  | nil => intro k i h; exact absurd h (Nat.not_lt_zero i)
  | cons s rest ih =>
    intro k i h hs
    cases i with
    | zero =>
      have hs' : skipCond s := hs
      show SplitAction.skip (k + 0 + 1) ∈ splitActionsFrom k (s :: rest)
      rw [splitActionsFrom]
      have hseg : segAction (k+1) s = SplitAction.skip (k+1) := by
        unfold segAction
        rw [if_pos hs']
      rw [hseg]
      exact List.mem_cons_self _ _
    | succ j =>
      have hj : j < rest.length := Nat.lt_of_succ_lt_succ h
      have hs' : skipCond (rest.get ⟨j, hj⟩) := hs
      show SplitAction.skip (k + (j+1) + 1) ∈ splitActionsFrom k (s :: rest)
      rw [splitActionsFrom, show k + (j+1) + 1 = (k+1) + j + 1 from by omega]
      exact List.mem_cons_of_mem _ (ih (k+1) j hj hs')

/-- An ordinal appears among the produced files exactly when the loop
makes a cut invocation for it. -/
theorem mem_producedOrdinals_iff : ∀ (tss : List SpeechSegment) (n : Nat),
    n ∈ producedOrdinals tss ↔ 0 < (splitActions tss).countP (isCutFor n) := by
  intro tss n
  unfold producedOrdinals
  rw [List.mem_filterMap, List.countP_pos_iff]
  constructor
  · rintro ⟨a, ha, heq⟩
    refine ⟨a, ha, ?_⟩
    cases a with
    | cut m st d =>
      simp only [cutOrdinal, Option.some_inj] at heq
      simp [isCutFor, heq]
    | skip m => simp [cutOrdinal] at heq
  · rintro ⟨a, ha, hp⟩
    refine ⟨a, ha, ?_⟩
    cases a with
    | cut m st d =>
      simp only [isCutFor, beq_iff_eq] at hp
      simp [cutOrdinal, hp]
    | skip m => simp [isCutFor] at hp

/-! ### Claim theorems: segmenter -/

/-- C2: every detected interval whose computed start time is at least
its end time, or whose duration is under 0.5 seconds, is skipped — its
skip log entry appears and no cut command for its file is invoked —
while every other interval yields exactly one cut-command invocation. -/
theorem claim_C2 : ∀ (tss : List SpeechSegment) (i : Nat) (h : i < tss.length),
    (skipCond (tss.get ⟨i, h⟩) →
      SplitAction.skip (i+1) ∈ splitActions tss ∧ cutInvocations tss (i+1) = 0) ∧
    (¬ skipCond (tss.get ⟨i, h⟩) → cutInvocations tss (i+1) = 1) := by
  intro tss i h
  have hc := splitActionsFrom_countP tss 0 i h
  rw [Nat.zero_add] at hc
  constructor
  · intro hs
    refine ⟨?_, ?_⟩
    · have hm := skip_mem_splitActionsFrom tss 0 i h hs
      rwa [Nat.zero_add] at hm
    · unfold cutInvocations splitActions
      rw [hc, if_pos hs]
  · intro hs
    unfold cutInvocations splitActions
    rw [hc, if_neg hs]

/-- C2, witness: for intervals (0, 4000) and (8000, 24000) in samples,
the first (0.25 s) is skipped with no cut for file 1.mp3 and the second
(1.0 s) gets exactly one cut invocation for file 2.mp3. -/
theorem claim_C2_witness :
    (SplitAction.skip 1 ∈ splitActions [⟨0, 4000⟩, ⟨8000, 24000⟩] ∧
      cutInvocations [⟨0, 4000⟩, ⟨8000, 24000⟩] 1 = 0) ∧
    cutInvocations [⟨0, 4000⟩, ⟨8000, 24000⟩] 2 = 1 :=
  ⟨(claim_C2 [⟨0, 4000⟩, ⟨8000, 24000⟩] 0 (by norm_num)).1
      (by simp [skipCond, startTime, endTime, segDuration]; norm_num),
   (claim_C2 [⟨0, 4000⟩, ⟨8000, 24000⟩] 1 (by norm_num)).2
      (by simp [skipCond, startTime, endTime, segDuration]; norm_num)⟩

/-- C8: a retained interval at 0-based detection position `i` produces
the segment file with 1-based ordinal `i+1` among all detected
intervals, and a skipped interval leaves the ordinal `i+1` absent, so
skipped intervals leave gaps rather than renumbering later segments. -/
theorem claim_C8 : ∀ (tss : List SpeechSegment) (i : Nat) (h : i < tss.length),
    ((i+1) ∈ producedOrdinals tss ↔ ¬ skipCond (tss.get ⟨i, h⟩)) := by
  intro tss i h
  rw [mem_producedOrdinals_iff]
  have hc := splitActionsFrom_countP tss 0 i h
  rw [Nat.zero_add] at hc
  unfold splitActions
  rw [hc]
  by_cases hs : skipCond (tss.get ⟨i, h⟩)
  · rw [if_pos hs]
    constructor
    · intro h0
      exact absurd h0 (by norm_num)
    · intro hns
      exact absurd hs hns
  · rw [if_neg hs]
    constructor
    · intro _
      exact hs
    · intro _
      norm_num

/-- C8, witness: for intervals (0, 2000) and (16000, 48000), the first
is skipped, and ordinal 2 (file 2.mp3) is among the produced files
because the second interval is retained. -/
theorem claim_C8_witness :
    2 ∈ producedOrdinals [⟨0, 2000⟩, ⟨16000, 48000⟩] :=
  (claim_C8 [⟨0, 2000⟩, ⟨16000, 48000⟩] 1 (by norm_num)).mpr
    (by simp [skipCond, startTime, endTime, segDuration]; norm_num)

/-- C10: for an interval with a negative start sample the start time is
clamped to 0 before the duration is computed, so the duration equals
end/16000, and the interval is retained exactly when end/16000 is at
least 0.5 and greater than 0. -/
theorem claim_C10 : ∀ s : SpeechSegment, s.start < 0 →
    startTime s = 0 ∧
    segDuration s = (s.endSample : ℚ) / 16000 ∧
    (¬ skipCond s ↔ ((s.endSample : ℚ) / 16000 ≥ 1/2 ∧ (s.endSample : ℚ) / 16000 > 0)) := by
  intro s hneg
  have hcast : (s.start : ℚ) ≤ 0 := by exact_mod_cast le_of_lt hneg
  have hle : ((s.start : ℚ) / 16000) ≤ 0 :=
    div_nonpos_of_nonpos_of_nonneg hcast (by norm_num)
  have hst : startTime s = 0 := by
    unfold startTime
    exact max_eq_left hle
  refine ⟨hst, ?_, ?_⟩
  · unfold segDuration endTime
    rw [hst, sub_zero]
  · unfold skipCond segDuration endTime
    rw [hst, sub_zero]
    constructor
    · intro hn
      push_neg at hn
      exact ⟨hn.2, hn.1⟩
    · intro hpair
      push_neg
      exact ⟨hpair.2, hpair.1⟩

/-- C10, witness: the interval (-8000, 16000) has a negative start
sample and its computed start time is clamped to 0. -/
theorem claim_C10_witness :
    ((-8000 : Int) < 0) ∧ startTime ⟨-8000, 16000⟩ = 0 :=
  ⟨by decide, (claim_C10 ⟨-8000, 16000⟩ (by decide)).1⟩

/-! ### Transcript-cleaning lemmas -/

/-- Universal-newline translation leaves no carriage return in the
translated content. -/
theorem no_cr_pyUniversalNewlines : ∀ s : List Char, '\r' ∉ pyUniversalNewlines s := by
  intro s
  induction s using pyUniversalNewlines.induct with
  | case1 => simp [pyUniversalNewlines]
  | case2 rest ih =>
    simp only [pyUniversalNewlines]
    intro h
    rcases List.mem_cons.mp h with h1 | h1
    · exact absurd h1 (by decide)
    · exact ih h1
  | case3 rest h1 ih =>
    cases rest with
    | nil => decide
    | cons d rest2 =>
      have hd : ¬ d = '\n' := fun h => h1 rest2 (by rw [h])
      simp only [pyUniversalNewlines, hd]
      intro h
      rcases List.mem_cons.mp h with h2 | h2
      · exact absurd h2 (by decide)
      · exact ih h2
  | case4 c rest h1 h2 ih =>
    have hc : ¬ c = '\r' := h2
    simp only [pyUniversalNewlines, hc]
    intro h
    rcases List.mem_cons.mp h with h3 | h3
    · exact hc h3.symm
    · exact ih h3

/-- Every character of a line produced by `readlinesAux` comes from the
accumulator or from the remaining input. -/
theorem mem_of_mem_readlinesAux : ∀ (s acc line : List Char), line ∈ readlinesAux acc s →
    ∀ c ∈ line, c ∈ acc ∨ c ∈ s := by
  intro s
  induction s with
  | nil =>
    intro acc line hline c hc
    unfold readlinesAux at hline
    split at hline
    · exact absurd hline (List.not_mem_nil line)
    · have heq : line = acc.reverse := List.mem_singleton.mp hline
      subst heq
      exact Or.inl (List.mem_reverse.mp hc)
  | cons d rest ih =>
    intro acc line hline c hc
    unfold readlinesAux at hline
    split at hline
    next hd =>
      rcases List.mem_cons.mp hline with h1 | h2
      · subst h1
        have hc' : c ∈ '\n' :: acc := List.mem_reverse.mp hc
        rcases List.mem_cons.mp hc' with h3 | h3
        · right
          exact List.mem_cons.mpr (Or.inl (h3.trans hd.symm))
        · exact Or.inl h3
      · rcases ih [] line h2 c hc with h3 | h3
        · exact absurd h3 (List.not_mem_nil c)
        · exact Or.inr (List.mem_cons_of_mem d h3)
    next hd =>
      rcases ih (d :: acc) line hline c hc with h3 | h3
      · rcases List.mem_cons.mp h3 with h4 | h4
        · subst h4
          exact Or.inr (List.mem_cons_self _ _)
        · exact Or.inl h4
      · exact Or.inr (List.mem_cons_of_mem d h3)

/-- If the accumulator holds no newline, every line produced by
`readlinesAux` has its only possible newline in last position. -/
theorem readlinesAux_dropLast : ∀ (s acc : List Char), '\n' ∉ acc →
    ∀ line ∈ readlinesAux acc s, '\n' ∉ line.dropLast := by
  intro s
  induction s with
  | nil =>
    intro acc hacc line hline
    unfold readlinesAux at hline
    split at hline
    · exact absurd hline (List.not_mem_nil line)
    · have heq : line = acc.reverse := List.mem_singleton.mp hline
      subst heq
      intro hmem
      have h1 : '\n' ∈ acc.reverse := (List.dropLast_sublist _).subset hmem
      exact hacc (List.mem_reverse.mp h1)
  | cons d rest ih =>
    intro acc hacc line hline
    unfold readlinesAux at hline
    split at hline
    next hd =>
      rcases List.mem_cons.mp hline with h1 | h2
      · subst h1
        rw [List.reverse_cons, List.dropLast_concat]
        intro hmem
        exact hacc (List.mem_reverse.mp hmem)
      · exact ih [] (List.not_mem_nil '\n') line h2
    next hd =>
      refine ih (d :: acc) ?_ line hline
      intro hmem
      rcases List.mem_cons.mp hmem with h1 | h1
      · exact hd h1.symm
      · exact hacc h1

/-- Content with no newline reads back as at most one line. -/
theorem readlinesAux_length_le : ∀ (s acc : List Char), '\n' ∉ s →
    (readlinesAux acc s).length ≤ 1 := by
  intro s
  induction s with
  | nil =>
    intro acc _
    unfold readlinesAux
    split
    · exact Nat.zero_le 1
    · exact Nat.le_refl 1
  | cons d rest ih =>
    intro acc hs
    unfold readlinesAux
    split
    next hd =>
      subst hd
      exact absurd (List.mem_cons_self _ _) hs
    next hd =>
      exact ih (d :: acc) (fun h => hs (List.mem_cons_of_mem d h))

/-- Stripping only removes characters. -/
theorem mem_of_mem_pyStrip : ∀ (l : List Char) (c : Char), c ∈ pyStrip l → c ∈ l := by
  intro l c hc
  unfold pyStrip at hc
  have h1 : c ∈ (l.dropWhile isPySpace).reverse.dropWhile isPySpace := List.mem_reverse.mp hc
  have h2 : c ∈ (l.dropWhile isPySpace).reverse := (List.dropWhile_sublist _).subset h1
  have h3 : c ∈ l.dropWhile isPySpace := List.mem_reverse.mp h2
  exact (List.dropWhile_sublist _).subset h3

/-- Stripping discards a trailing whitespace character. -/
theorem pyStrip_append_of_space : ∀ (l : List Char) (a : Char), isPySpace a = true →
    pyStrip (l ++ [a]) = pyStrip l := by
  intro l a ha
  unfold pyStrip
  rw [List.dropWhile_append]
  by_cases he : (l.dropWhile isPySpace).isEmpty
  · rw [if_pos he, List.isEmpty_iff.mp he]
    simp [List.dropWhile_cons, ha]
  · rw [if_neg he, List.reverse_append]
    simp [List.dropWhile_cons, ha]

/-- A line whose only possible newline is its last character strips to
a newline-free string. -/
theorem pyStrip_not_mem_nl : ∀ l : List Char, '\n' ∉ l.dropLast → '\n' ∉ pyStrip l := by
  intro l
  rcases List.eq_nil_or_concat l with rfl | ⟨l₂, a, rfl⟩
  · intro _ h
    exact absurd (mem_of_mem_pyStrip [] '\n' h) (List.not_mem_nil '\n')
  · rw [List.concat_eq_append, List.dropLast_concat]
    intro hl₂
    by_cases hna : a = '\n'
    · subst hna
      rw [pyStrip_append_of_space l₂ '\n' (by decide)]
      intro h
      exact hl₂ (mem_of_mem_pyStrip l₂ '\n' h)
    · intro h
      rcases List.mem_append.mp (mem_of_mem_pyStrip (l₂ ++ [a]) '\n' h) with h1 | h1
      · exact hl₂ h1
      · exact hna (List.mem_singleton.mp h1).symm

/-- Characters of a join are separator characters or come from one of
the parts. -/
theorem mem_joinWith : ∀ (sep : List Char) (ls : List (List Char)) (c : Char),
    c ∈ joinWith sep ls → c ∈ sep ∨ ∃ l ∈ ls, c ∈ l := by
  intro sep ls
  induction ls with
  | nil =>
    intro c hc
    simp only [joinWith] at hc
    exact absurd hc (List.not_mem_nil c)
  | cons l rest ih =>
    intro c hc
    cases rest with
    | nil =>
      simp only [joinWith] at hc
      exact Or.inr ⟨l, List.mem_singleton_self l, hc⟩
    | cons l2 rest2 =>
      simp only [joinWith] at hc
      rcases List.mem_append.mp hc with h1 | h2
      · rcases List.mem_append.mp h1 with h3 | h3
        · exact Or.inr ⟨l, List.mem_cons_self _ _, h3⟩
        · exact Or.inl h3
      · rcases ih c h2 with h3 | ⟨l3, hl3, hc3⟩
        · exact Or.inl h3
        · exact Or.inr ⟨l3, List.mem_cons_of_mem _ hl3, hc3⟩

/-! ### Claim theorems: transcript cleaning and transcriber -/

/-- C4: for every transcript file content, the newline-stripping
operation rewrites it to the original lines each stripped of
surrounding whitespace and joined by single spaces, the result
contains no line-break character (neither LF nor CR), and reading the
result back yields at most a single line. -/
theorem claim_C4 : ∀ content : List Char,
    remove_newlines_from_text content =
      joinWith [' '] ((pyReadlines (pyUniversalNewlines content)).map pyStrip) ∧
    (∀ c ∈ remove_newlines_from_text content, c ≠ '\n' ∧ c ≠ '\r') ∧
    (pyReadlines (remove_newlines_from_text content)).length ≤ 1 := by
  intro content
  have hkey : ∀ c ∈ remove_newlines_from_text content, c ≠ '\n' ∧ c ≠ '\r' := by
    intro c hc
    unfold remove_newlines_from_text at hc
    rcases mem_joinWith _ _ c hc with h1 | ⟨l, hl, hcl⟩
    · have hsp : c = ' ' := List.mem_singleton.mp h1
      subst hsp
      exact ⟨by decide, by decide⟩
    · rcases List.mem_map.mp hl with ⟨line, hline, rfl⟩
      constructor
      · intro hcn
        subst hcn
        exact pyStrip_not_mem_nl line
          (readlinesAux_dropLast (pyUniversalNewlines content) [] (List.not_mem_nil _) line hline)
          hcl
      · intro hcr
        subst hcr
        have h1 : '\r' ∈ line := mem_of_mem_pyStrip line '\r' hcl
        rcases mem_of_mem_readlinesAux (pyUniversalNewlines content) [] line hline '\r' h1 with
          h2 | h2
        · exact absurd h2 (List.not_mem_nil _)
        · exact no_cr_pyUniversalNewlines content h2
  refine ⟨rfl, hkey, ?_⟩
  have hnn : '\n' ∉ remove_newlines_from_text content :=
    fun h => (hkey '\n' h).1 rfl
  exact readlinesAux_length_le (remove_newlines_from_text content) [] hnn

/-- The post-transcription loop handles every segment file: one event
per file. -/
theorem transcribe_post_length : ∀ (folder : List Char) (fs : List Char → Option (List Char))
    (files : List (List Char)), (transcribe_post folder fs files).length = files.length := by
  intro folder fs files
  unfold transcribe_post
  exact List.length_map _ _

/-- The event at position `i` is determined by the file at position
`i` alone. -/
theorem transcribe_post_get? : ∀ (folder : List Char) (fs : List Char → Option (List Char))
    (files : List (List Char)) (i : Nat),
    (transcribe_post folder fs files).get? i = (files.get? i).map (transcribeStep folder fs) := by
  intro folder fs files i
  unfold transcribe_post
  exact List.get?_map _ _ _

/-- C5: in the transcriber, for every segment file whose expected
sibling text-output file is missing, the failure is logged and that
file is skipped while every other segment file still gets its own
event (one event per file, so the batch continues); for every segment
file whose text output exists, it is cleaned and moved into the
destination directory. -/
theorem claim_C5 : ∀ (folder : List Char) (fs : List Char → Option (List Char))
    (files : List (List Char)) (i : Nat) (file : List Char),
    files.get? i = some file →
    ((transcribe_post folder fs files).length = files.length ∧
     (fs (file ++ txtSuffix) = none →
       (transcribe_post folder fs files).get? i =
         some (TranscribeEvent.logFail (file ++ txtSuffix))) ∧
     (∀ content, fs (file ++ txtSuffix) = some content →
       (transcribe_post folder fs files).get? i =
         some (TranscribeEvent.moved (file ++ txtSuffix)
           (joinPath folder (basename (file ++ txtSuffix)))
           (remove_newlines_from_text content)))) := by
  intro folder fs files i file hget
  refine ⟨transcribe_post_length folder fs files, ?_, ?_⟩
  · intro hnone
    rw [transcribe_post_get?, hget]
    simp [transcribeStep, hnone]
  · intro content hsome
    rw [transcribe_post_get?, hget]
    simp [transcribeStep, hsome]

/-- C5, witness: with only the transcript of 1.mp3 present, the first
file is cleaned ("hi\nthere\n" becomes "hi there") and moved into
TEXT, while for 2.mp3 the failure is logged — and both files get their
event. -/
theorem claim_C5_witness :
    (transcribe_post ("TEXT".toList) exampleFs ["1.mp3".toList, "2.mp3".toList]).get? 0 =
      some (TranscribeEvent.moved ("1.mp3.txt".toList) ("TEXT/1.mp3.txt".toList)
        ("hi there".toList)) ∧
    (transcribe_post ("TEXT".toList) exampleFs ["1.mp3".toList, "2.mp3".toList]).get? 1 =
      some (TranscribeEvent.logFail ("2.mp3.txt".toList)) :=
  ⟨((claim_C5 ("TEXT".toList) exampleFs ["1.mp3".toList, "2.mp3".toList] 0 ("1.mp3".toList)
      rfl).2.2 ("hi\nthere\n".toList) (by decide)).trans (by decide),
   ((claim_C5 ("TEXT".toList) exampleFs ["1.mp3".toList, "2.mp3".toList] 1 ("2.mp3".toList)
      rfl).2.1 (by decide)).trans (by decide)⟩

end STTVoiceSpliter
